import Mathlib

/-!
Shallow embedding of the core of the lane-based rhythm game
(src/App.tsx, src/components/GameCanvas.tsx, src/unnamed/part_000 constants,
src/unnamed/part_001 types).

Positions are percentages of the field height, embedded as rationals
(the source uses JS numbers but only adds, subtracts and compares them).
Score deltas are integers, health is a rational. The renderer, the feedback
overlay and the media player are out of scope: they only consume engine state.
-/

namespace Guitar

/-! ### Constants (src/unnamed/part_000) -/

def HIT_LINE_Y : ℚ := 85
def HIT_WINDOW : ℚ := 15
def SCORE_HIT : Int := 10
def SCORE_MISS : Int := -5
def MAX_HEALTH : ℚ := 100
def HEALTH_PENALTY : ℚ := 10
def HEALTH_GAIN : ℚ := 2

/-! ### Data model (src/unnamed/part_001 and GameCanvas note objects) -/

/-- A note as held in notesRef: id, lane, head position y, hit/missed flags,
tail length (0 for tap notes) and the isHolding flag. -/
structure Note where
  id : ℚ
  laneId : Nat
  y : ℚ
  hit : Bool
  missed : Bool
  length : ℚ
  isHolding : Bool
deriving Repr, DecidableEq, Inhabited

/-- Result of one judgment or per-note frame step: the updated notes plus the
score events (delta, comboReset) and health deltas passed to the callbacks. -/
structure FrameEffect where
  note : Note
  scoreEvents : List (Int × Bool)
  healthEvents : List ℚ
deriving Repr, DecidableEq

/-- Result of attemptHit over the whole store. -/
structure HitOutcome where
  notes : List Note
  scoreEvents : List (Int × Bool)
  healthEvents : List ℚ
deriving Repr, DecidableEq

/-! ### Judgment engine (GameCanvas.tsx, attemptHit, lines 43-72) -/

/-- The filter of attemptHit line 45: same lane, not hit, not missed. -/
def eligible (lane : Nat) (n : Note) : Bool :=
  n.laneId == lane && !n.hit && !n.missed

/-- Accumulator step: keep the candidate with the larger y, preferring the
earlier one on ties (JS stable sort by descending y, then index 0). -/
def better (cur : Option (Nat × Note)) (i : Nat) (n : Note) : Option (Nat × Note) :=
  match cur with
  | none => some (i, n)
  | some m => if m.2.y < n.y then some (i, n) else some m

/-- Scan of the store keeping the first eligible note of maximal y together
with its index.  This models lines 45-51: filter eligible notes of the lane,
stable-sort by descending y, take element 0 (the first index attaining the
maximal y). -/
def selectAux (lane : Nat) : List Note → Nat → Option (Nat × Note) → Option (Nat × Note)
  | [], _, acc => acc
  | n :: rest, i, acc =>
      selectAux lane rest (i + 1) (if eligible lane n then better acc i n else acc)

/-- The target note chosen by attemptHit, with its index in the store. -/
def selectHit (notes : List Note) (lane : Nat) : Option (Nat × Note) :=
  selectAux lane notes 0 none

/-- In-place mutation of the i-th note, as targetNote.hit = true mutates the
shared object inside notesRef. -/
def modifyAt : List Note → Nat → (Note → Note) → List Note
  | [], _, _ => []
  | n :: rest, 0, f => f n :: rest
  | n :: rest, i + 1, f => n :: modifyAt rest i f

/-- attemptHit (GameCanvas.tsx lines 43-72): pick the eligible note of the lane
closest to the bottom; distance to the hit line decides hit / near-miss / no-op. -/
def attemptHit (notes : List Note) (lane : Nat) : HitOutcome :=
  match selectHit notes lane with
  | none => { notes := notes, scoreEvents := [], healthEvents := [] }
  | some (i, target) =>
      let distance := |target.y - HIT_LINE_Y|
      if distance ≤ HIT_WINDOW then
        { notes := modifyAt notes i (fun n => { n with hit := true }),
          scoreEvents := [(SCORE_HIT, false)],
          healthEvents := [HEALTH_GAIN] }
      else if distance < HIT_WINDOW * 2 then
        { notes := notes,
          scoreEvents := [(SCORE_MISS, true)],
          healthEvents := [-HEALTH_PENALTY] }
      else
        { notes := notes, scoreEvents := [], healthEvents := [] }

/-! ### Kinematic updater (GameCanvas.tsx, updateNotes, lines 213-264) -/

/-- First pass of updateNotes on one note (lines 215-248): advance y by the
note speed, then run the hold logic for already-hit long notes. -/
def updateOne (held : List Nat) (speed : ℚ) (note : Note) : FrameEffect :=
  let moved := { note with y := note.y + speed }
  if moved.hit = true ∧ 0 < moved.length then
    if held.contains moved.laneId then
      let holding := { moved with isHolding := true }
      if HIT_LINE_Y < holding.y - holding.length then
        -- Tail passed: completed. length := 0 and y := 200 mark it done.
        { note := { holding with length := 0, y := 200 },
          scoreEvents := [(5, false)],
          healthEvents := [] }
      else
        { note := holding, scoreEvents := [], healthEvents := [] }
    else
      if moved.y - moved.length < HIT_LINE_Y then
        -- Released too early: treated as a fresh miss, pushed down by 10.
        let lost := { moved with
          isHolding := false
          missed := true
          hit := false
          y := moved.y + 10 }
        { note := lost,
          scoreEvents := [(SCORE_MISS, true)],
          healthEvents := [-HEALTH_PENALTY] }
      else
        { note := moved, scoreEvents := [], healthEvents := [] }
  else
    { note := moved, scoreEvents := [], healthEvents := [] }

/-- Second pass of updateNotes on one note (lines 251-260): a note that was
never hit and never missed whose head passed hitLine + hitWindow is marked
missed with one penalty.  The inner conditional mirrors the ternary of the
source, `note.y - (note.length > 0 ? 0 : 0)`. -/
def missCheck (note : Note) : FrameEffect :=
  if note.hit = false ∧ note.missed = false ∧
      HIT_LINE_Y + HIT_WINDOW < note.y - (if 0 < note.length then 0 else 0) then
    { note := { note with missed := true },
      scoreEvents := [(SCORE_MISS, true)],
      healthEvents := [-HEALTH_PENALTY] }
  else
    { note := note, scoreEvents := [], healthEvents := [] }

/-- The keep-condition of the final cleanup filter (line 263). -/
def offscreenKeep (n : Note) : Bool :=
  decide (n.y - n.length < 120)

/-- updateNotes (lines 213-264): hold pass over all notes, then miss pass,
then drop the notes that are far off screen. -/
def updateNotes (held : List Nat) (speed : ℚ) (notes : List Note) :
    List Note × List (Int × Bool) × List ℚ :=
  let phase1 := notes.map (updateOne held speed)
  let notes1 := phase1.map FrameEffect.note
  let phase2 := notes1.map missCheck
  let notes2 := phase2.map FrameEffect.note
  (notes2.filter offscreenKeep,
   (phase1.map FrameEffect.scoreEvents).flatten ++ (phase2.map FrameEffect.scoreEvents).flatten,
   (phase1.map FrameEffect.healthEvents).flatten ++ (phase2.map FrameEffect.healthEvents).flatten)

/-! ### Spawner (GameCanvas.tsx, spawnNote, lines 176-211)

The random draws of the source (chord coin flip, lane shuffle, hold coin
flips and lengths) are passed in as parameters: selectedLanes stands for
lanes.slice(0, noteCount) after the shuffle and lengths for the sampled
tail lengths (0 for tap notes). -/

def spawnBatch (timestamp : ℚ) (selectedLanes : List Nat) (lengths : List ℚ) : List Note :=
  (selectedLanes.zip lengths).enum.map fun p =>
    { id := timestamp + p.1
      laneId := p.2.1
      y := -10
      hit := false
      missed := false
      length := p.2.2
      isHolding := false }

/-- spawnNote: fire only when the spawn interval elapsed; new notes are
appended to the store and the spawn timestamp is recorded. -/
def spawnNote (notes : List Note) (timestamp lastSpawn spawnRate : ℚ)
    (selectedLanes : List Nat) (lengths : List ℚ) : List Note × ℚ :=
  if spawnRate < timestamp - lastSpawn then
    (notes ++ spawnBatch timestamp selectedLanes lengths, timestamp)
  else
    (notes, lastSpawn)

/-! ### Held-input set (GameCanvas.tsx heldLanesRef, lines 23, 75-135) -/

/-- handleKeyDown adds the lane of a recognized key to the held set. -/
def keyDownHeld (held : List Nat) (lane : Nat) : List Nat :=
  if held.contains lane then held else lane :: held

/-- handleKeyUp removes the lane of the released key. -/
def keyUpHeld (held : List Nat) (lane : Nat) : List Nat :=
  held.filter (fun l => l != lane)

/-- handleTouchEnd (lines 119-135): when no touches remain, the WHOLE held
set is cleared; otherwise nothing changes. -/
def handleTouchEnd (remainingTouches : Nat) (held : List Nat) : List Nat :=
  if remainingTouches = 0 then [] else held

/-! ### Scoring and health state machine (src/App.tsx, lines 14-91) -/

inductive GameStatus
  | menu
  | playing
  | gameOver
deriving DecidableEq, Repr

structure Session where
  status : GameStatus
  score : Int
  combo : Nat
  maxCombo : Nat
  health : ℚ
deriving Repr, DecidableEq

/-- startGame (App.tsx lines 48-54). -/
def startGame (s : Session) : Session :=
  { s with score := 0, combo := 0, maxCombo := 0, health := MAX_HEALTH,
           status := GameStatus.playing }

/-- handleScoreUpdate (App.tsx lines 60-71): add the delta; reset the combo or
bump it, raising maxCombo when passed. -/
def handleScoreUpdate (s : Session) (delta : Int) (resetCombo : Bool) : Session :=
  let s1 := { s with score := s.score + delta }
  if resetCombo then
    { s1 with combo := 0 }
  else
    let newCombo := s1.combo + 1
    { s1 with combo := newCombo,
              maxCombo := if s1.maxCombo < newCombo then newCombo else s1.maxCombo }

/-- handleHealthUpdate (App.tsx lines 77-85): clamp to [0, MAX_HEALTH] and,
while a session is playing, transition to game over when the clamped value
reaches 0 (the deferred endGame call sets GAME_OVER). -/
def handleHealthUpdate (s : Session) (delta : ℚ) : Session :=
  let newHealth := min MAX_HEALTH (max 0 (s.health + delta))
  if newHealth ≤ 0 ∧ s.status = GameStatus.playing then
    { s with health := newHealth, status := GameStatus.gameOver }
  else
    { s with health := newHealth }

/-- A whole sequence of health callbacks. -/
def runHealth (s : Session) (ds : List ℚ) : Session :=
  ds.foldl handleHealthUpdate s

/-- Number of playing-to-gameOver transitions fired along a run of health
callbacks. -/
def gameOverFires : Session → List ℚ → Nat
  | _, [] => 0
  | s, d :: ds =>
      let s2 := handleHealthUpdate s d
      (if s.status = GameStatus.playing ∧ s2.status = GameStatus.gameOver then 1 else 0)
        + gameOverFires s2 ds

/-- A whole sequence of score callbacks. -/
def runScore (s : Session) (es : List (Int × Bool)) : Session :=
  es.foldl (fun t e => handleScoreUpdate t e.1 e.2) s

/-- The successive combo values along a run of score callbacks. -/
def comboTrace : Session → List (Int × Bool) → List Nat
  | _, [] => []
  | s, e :: es =>
      let s2 := handleScoreUpdate s e.1 e.2
      s2.combo :: comboTrace s2 es

/-! ### Helper lemmas: target selection -/

theorem better_cases (cur : Option (Nat × Note)) (i : Nat) (n : Note) :
    better cur i n = some (i, n) ∨ better cur i n = cur := by
  cases cur with
  | none => left; rfl
  | some m =>
      simp only [better]
      split_ifs
      · left; rfl
      · right; rfl

theorem better_isSome (cur : Option (Nat × Note)) (i : Nat) (n : Note) :
    ∃ q, better cur i n = some q := by
  cases cur with
  | none => exact ⟨(i, n), rfl⟩
  | some m =>
      simp only [better]
      split_ifs
      · exact ⟨(i, n), rfl⟩
      · exact ⟨m, rfl⟩

theorem better_bounds (cur : Option (Nat × Note)) (i : Nat) (n : Note)
    (q : Nat × Note) (h : better cur i n = some q) :
    (∀ m, cur = some m → m.2.y ≤ q.2.y) ∧ n.y ≤ q.2.y := by
  cases cur with
  | none =>
      simp only [better] at h
      cases h
      refine ⟨?_, le_refl _⟩
      intro m hm
      cases hm
  | some m =>
      simp only [better] at h
      split_ifs at h with hy
      · cases h
        refine ⟨?_, le_refl _⟩
        intro m2 hm2
        cases hm2
        exact le_of_lt hy
      · cases h
        refine ⟨?_, le_of_not_lt hy⟩
        intro m2 hm2
        cases hm2
        exact le_refl _

theorem selectAux_mem (lane : Nat) :
    ∀ (l : List Note) (i : Nat) (acc : Option (Nat × Note)) (p : Nat × Note),
      selectAux lane l i acc = some p →
      acc = some p ∨
        (eligible lane p.2 = true ∧
          ∃ k, k < l.length ∧ p.1 = i + k ∧ l.getD k default = p.2)
  | [], _, _, _, h => Or.inl h
  | n :: rest, i, acc, p, h => by
      simp only [selectAux] at h
      by_cases he : eligible lane n = true
      · rw [if_pos he] at h
        rcases selectAux_mem lane rest (i + 1) (better acc i n) p h with h1 | ⟨helig, k, hk, hik, hget⟩
        · rcases better_cases acc i n with hb | hb
          · rw [h1] at hb
            cases hb
            right
            refine ⟨he, 0, by simp, by simp, by simp⟩
          · left; rw [← hb, h1]
        · right
          refine ⟨helig, k + 1, by simpa using hk, by omega, by simpa using hget⟩
      · rw [if_neg he] at h
        rcases selectAux_mem lane rest (i + 1) acc p h with h1 | ⟨helig, k, hk, hik, hget⟩
        · left; exact h1
        · right
          refine ⟨helig, k + 1, by simpa using hk, by omega, by simpa using hget⟩

theorem selectAux_max (lane : Nat) :
    ∀ (l : List Note) (i : Nat) (acc : Option (Nat × Note)) (p : Nat × Note),
      selectAux lane l i acc = some p →
      (∀ m, acc = some m → m.2.y ≤ p.2.y) ∧
      (∀ n ∈ l, eligible lane n = true → n.y ≤ p.2.y)
  | [], _, _, p, h => by
      refine ⟨?_, by simp⟩
      intro m hm
      rw [hm] at h
      cases h
      exact le_refl _
  | n :: rest, i, acc, p, h => by
      simp only [selectAux] at h
      by_cases he : eligible lane n = true
      · rw [if_pos he] at h
        have ih := selectAux_max lane rest (i + 1) (better acc i n) p h
        obtain ⟨q, hq⟩ := better_isSome acc i n
        have hqp : q.2.y ≤ p.2.y := ih.1 q hq
        have hb := better_bounds acc i n q hq
        refine ⟨?_, ?_⟩
        · intro m hm
          exact le_trans (hb.1 m hm) hqp
        · intro n2 hn2 helig2
          rcases List.mem_cons.mp hn2 with rfl | hmem
          · exact le_trans hb.2 hqp
          · exact ih.2 n2 hmem helig2
      · rw [if_neg he] at h
        have ih := selectAux_max lane rest (i + 1) acc p h
        refine ⟨ih.1, ?_⟩
        intro n2 hn2 helig2
        rcases List.mem_cons.mp hn2 with rfl | hmem
        · exact absurd helig2 he
        · exact ih.2 n2 hmem helig2

theorem eligible_iff (lane : Nat) (n : Note) :
    eligible lane n = true ↔ n.laneId = lane ∧ n.hit = false ∧ n.missed = false := by
  simp [eligible, and_assoc]

/-- What selectHit returns: an in-range index whose note is eligible and has
the largest y among the eligible notes of the lane. -/
theorem selectHit_spec (notes : List Note) (lane i : Nat) (t : Note)
    (hsel : selectHit notes lane = some (i, t)) :
    i < notes.length ∧ notes.getD i default = t ∧ eligible lane t = true ∧
    ∀ n ∈ notes, eligible lane n = true → n.y ≤ t.y := by
  have hmem := selectAux_mem lane notes 0 none (i, t) hsel
  have hmax := selectAux_max lane notes 0 none (i, t) hsel
  rcases hmem with h | ⟨helig, k, hk, hik, hget⟩
  · cases h
  · simp only at hik
    refine ⟨by omega, ?_, helig, hmax.2⟩
    have : k = i := by omega
    rw [← this]
    exact hget

/-! ### Helper lemmas: in-place mutation -/

theorem modifyAt_length (f : Note → Note) :
    ∀ (l : List Note) (i : Nat), (modifyAt l i f).length = l.length
  | [], _ => rfl
  | _ :: rest, 0 => rfl
  | _ :: rest, i + 1 => by simp [modifyAt, modifyAt_length f rest i]

theorem modifyAt_getD_ne (f : Note → Note) :
    ∀ (l : List Note) (i j : Nat), j ≠ i →
      (modifyAt l i f).getD j default = l.getD j default
  | [], _, _, _ => by simp [modifyAt]
  | n :: rest, 0, j, hj => by
      cases j with
      | zero => exact absurd rfl hj
      | succ j2 => simp [modifyAt]
  | n :: rest, i + 1, j, hj => by
      cases j with
      | zero => simp [modifyAt]
      | succ j2 =>
          simp only [modifyAt, List.getD_cons_succ]
          exact modifyAt_getD_ne f rest i j2 (by omega)

theorem modifyAt_getD_eq (f : Note → Note) :
    ∀ (l : List Note) (i : Nat), i < l.length →
      (modifyAt l i f).getD i default = f (l.getD i default)
  | [], i, h => by simp at h
  | n :: rest, 0, _ => by simp [modifyAt]
  | n :: rest, i + 1, h => by
      simp only [modifyAt, List.getD_cons_succ]
      exact modifyAt_getD_eq f rest i (by simpa using h)

/-! ### Helper lemmas: per-note frame behaviour -/

/-- A note whose head was not hit only moves in the first pass. -/
theorem updateOne_unhit (held : List Nat) (speed : ℚ) (m : Note) (h : m.hit = false) :
    updateOne held speed m =
      { note := { m with y := m.y + speed }, scoreEvents := [], healthEvents := [] } := by
  simp [updateOne, h]

/-- A tap note (length 0) only moves in the first pass. -/
theorem updateOne_tap (held : List Nat) (speed : ℚ) (m : Note) (h : ¬ 0 < m.length) :
    updateOne held speed m =
      { note := { m with y := m.y + speed }, scoreEvents := [], healthEvents := [] } := by
  simp only [updateOne]
  rw [if_neg]
  intro hc
  exact h hc.2

/-- Hold note, head hit, lane not held, tail still above the line:
released early, one penalty. -/
theorem updateOne_released (held : List Nat) (speed : ℚ) (n : Note)
    (hhit : n.hit = true) (hlen : 0 < n.length)
    (hheld : held.contains n.laneId = false)
    (htail : n.y + speed - n.length < HIT_LINE_Y) :
    updateOne held speed n =
      { note := { n with
          y := n.y + speed + 10
          hit := false
          missed := true
          isHolding := false }
        scoreEvents := [(SCORE_MISS, true)]
        healthEvents := [-HEALTH_PENALTY] } := by
  simp only [updateOne]
  rw [if_pos ⟨hhit, hlen⟩, if_neg (by simpa using hheld), if_pos htail]

/-- Hold note, head hit, lane held, tail still above the line: keeps holding,
no events. -/
theorem updateOne_holding (held : List Nat) (speed : ℚ) (n : Note)
    (hhit : n.hit = true) (hlen : 0 < n.length)
    (hheld : held.contains n.laneId = true)
    (htail : ¬ HIT_LINE_Y < n.y + speed - n.length) :
    updateOne held speed n =
      { note := { n with y := n.y + speed, isHolding := true }
        scoreEvents := []
        healthEvents := [] } := by
  simp only [updateOne]
  rw [if_pos ⟨hhit, hlen⟩, if_pos hheld, if_neg htail]

/-- Hold note, head hit, lane held, tail past the line: completed, one bonus. -/
theorem updateOne_completed (held : List Nat) (speed : ℚ) (n : Note)
    (hhit : n.hit = true) (hlen : 0 < n.length)
    (hheld : held.contains n.laneId = true)
    (htail : HIT_LINE_Y < n.y + speed - n.length) :
    updateOne held speed n =
      { note := { n with y := 200, length := 0, isHolding := true }
        scoreEvents := [(5, false)]
        healthEvents := [] } := by
  simp only [updateOne]
  rw [if_pos ⟨hhit, hlen⟩, if_pos hheld, if_pos htail]

/-- The second pass never touches an already-missed note. -/
theorem missCheck_missed (m : Note) (h : m.missed = true) :
    missCheck m = { note := m, scoreEvents := [], healthEvents := [] } := by
  simp [missCheck, h]

/-- The second pass never touches an already-hit note. -/
theorem missCheck_hit (m : Note) (h : m.hit = true) :
    missCheck m = { note := m, scoreEvents := [], healthEvents := [] } := by
  simp [missCheck, h]

/-- A live note whose head is past hitLine + hitWindow is marked missed with
one penalty. -/
theorem missCheck_over (m : Note) (hhit : m.hit = false) (hmiss : m.missed = false)
    (hy : HIT_LINE_Y + HIT_WINDOW < m.y) :
    missCheck m =
      { note := { m with missed := true }
        scoreEvents := [(SCORE_MISS, true)]
        healthEvents := [-HEALTH_PENALTY] } := by
  simp only [missCheck, ite_self, sub_zero]
  rw [if_pos ⟨hhit, hmiss, hy⟩]

/-- A live note at or before hitLine + hitWindow is left alone. -/
theorem missCheck_under (m : Note) (hy : ¬ HIT_LINE_Y + HIT_WINDOW < m.y) :
    missCheck m = { note := m, scoreEvents := [], healthEvents := [] } := by
  simp only [missCheck, ite_self, sub_zero]
  rw [if_neg]
  intro hc
  exact hy hc.2.2

/-- The first pass never clears the missed flag. -/
theorem updateOne_keeps_missed (held : List Nat) (speed : ℚ) (m : Note)
    (h : m.missed = true) : (updateOne held speed m).note.missed = true := by
  simp only [updateOne]
  split_ifs <;> simp [h]

/-! ### Helper lemmas: session state machine -/

theorem handleHealthUpdate_health (s : Session) (d : ℚ) :
    (handleHealthUpdate s d).health = min MAX_HEALTH (max 0 (s.health + d)) := by
  simp only [handleHealthUpdate]
  split_ifs <;> rfl

theorem handleHealthUpdate_gameOver_stays (s : Session) (d : ℚ)
    (h : s.status = GameStatus.gameOver) :
    (handleHealthUpdate s d).status = GameStatus.gameOver := by
  simp only [handleHealthUpdate]
  split_ifs with hc
  · exact absurd hc.2 (by rw [h]; simp)
  · exact h

theorem gameOverFires_of_gameOver (ds : List ℚ) :
    ∀ s : Session, s.status = GameStatus.gameOver → gameOverFires s ds = 0 := by
  induction ds with
  | nil => intro s _; rfl
  | cons d ds ih =>
      intro s hs
      simp only [gameOverFires]
      rw [if_neg (by rw [hs]; intro hc; cases hc.1), ih _ (handleHealthUpdate_gameOver_stays s d hs)]

theorem gameOverFires_le_one (ds : List ℚ) :
    ∀ s : Session, gameOverFires s ds ≤ 1 := by
  induction ds with
  | nil => intro s; exact Nat.zero_le 1
  | cons d ds ih =>
      intro s
      simp only [gameOverFires]
      split_ifs with hc
      · rw [gameOverFires_of_gameOver ds _ hc.2]
      · simpa using ih (handleHealthUpdate s d)

theorem handleScoreUpdate_reset (s : Session) (d : Int) :
    (handleScoreUpdate s d true).combo = 0 ∧
    (handleScoreUpdate s d true).maxCombo = s.maxCombo := by
  simp [handleScoreUpdate]

theorem handleScoreUpdate_inc (s : Session) (d : Int) :
    (handleScoreUpdate s d false).combo = s.combo + 1 ∧
    (handleScoreUpdate s d false).maxCombo = max s.maxCombo (s.combo + 1) := by
  refine ⟨by simp [handleScoreUpdate], ?_⟩
  simp only [handleScoreUpdate]
  rw [if_neg (by simp)]
  split_ifs with hlt
  · exact (max_eq_right (le_of_lt hlt)).symm
  · show s.maxCombo = max s.maxCombo (s.combo + 1)
    exact (max_eq_left (by omega)).symm

theorem handleScoreUpdate_maxCombo_highwater (s : Session) (d : Int) (r : Bool) :
    (handleScoreUpdate s d r).maxCombo =
      max s.maxCombo (handleScoreUpdate s d r).combo := by
  cases r with
  | false =>
      rw [(handleScoreUpdate_inc s d).1, (handleScoreUpdate_inc s d).2]
  | true =>
      rw [(handleScoreUpdate_reset s d).1, (handleScoreUpdate_reset s d).2]
      omega

theorem handleScoreUpdate_maxCombo_mono (s : Session) (d : Int) (r : Bool) :
    s.maxCombo ≤ (handleScoreUpdate s d r).maxCombo := by
  rw [handleScoreUpdate_maxCombo_highwater]
  exact le_max_left _ _

theorem runScore_maxCombo_mono (es : List (Int × Bool)) :
    ∀ s : Session, s.maxCombo ≤ (runScore s es).maxCombo := by
  induction es with
  | nil => intro s; exact le_refl _
  | cons e es ih =>
      intro s
      exact le_trans (handleScoreUpdate_maxCombo_mono s e.1 e.2)
        (ih (handleScoreUpdate s e.1 e.2))

theorem runScore_maxCombo_trace (es : List (Int × Bool)) :
    ∀ s : Session, (runScore s es).maxCombo = (comboTrace s es).foldl max s.maxCombo := by
  induction es with
  | nil => intro s; rfl
  | cons e es ih =>
      intro s
      simp only [runScore, comboTrace, List.foldl_cons]
      have h1 := ih (handleScoreUpdate s e.1 e.2)
      simp only [runScore] at h1
      rw [h1, handleScoreUpdate_maxCombo_highwater]

/-! ### Helper: case shape of attemptHit once a target is selected -/

theorem attemptHit_eq_of_select (notes : List Note) (lane i : Nat) (t : Note)
    (hsel : selectHit notes lane = some (i, t)) :
    attemptHit notes lane =
      if |t.y - HIT_LINE_Y| ≤ HIT_WINDOW then
        { notes := modifyAt notes i (fun n => { n with hit := true })
          scoreEvents := [(SCORE_HIT, false)]
          healthEvents := [HEALTH_GAIN] }
      else if |t.y - HIT_LINE_Y| < HIT_WINDOW * 2 then
        { notes := notes
          scoreEvents := [(SCORE_MISS, true)]
          healthEvents := [-HEALTH_PENALTY] }
      else
        { notes := notes, scoreEvents := [], healthEvents := [] } := by
  simp only [attemptHit, hsel]

/-! ### Sample data for concrete evaluations -/

/-- A tap note in lane 0 whose head sits 16 units past the hit line. -/
def wNoteA : Note :=
  { id := 1, laneId := 0, y := 101, hit := false, missed := false, length := 0,
    isHolding := false }

/-- A hold note in lane 2 whose head was already judged hit. -/
def wHold : Note :=
  { id := 3, laneId := 2, y := 90, hit := true, missed := false, length := 25,
    isHolding := true }

/-! ### Claims -/

/-- C1: for a press with an eligible note selected, with hitWindow = 15 and
hit line = 85, judgment goes by distance = |y - 85|: distance ≤ 15 marks the
note hit and emits a positive score delta without combo reset plus a health
gain; 15 < distance < 30 emits a negative combo-resetting score delta and a
health penalty; distance ≥ 30 is a no-op.  In particular y = 85 succeeds,
y = 101 is a near miss, y = 120 does nothing. -/
theorem C1_judgment_by_distance (notes : List Note) (lane i : Nat) (t : Note)
    (hsel : selectHit notes lane = some (i, t)) :
    HIT_WINDOW = 15 ∧ HIT_LINE_Y = 85 ∧
    (|t.y - 85| ≤ 15 →
      attemptHit notes lane =
        { notes := modifyAt notes i (fun n => { n with hit := true })
          scoreEvents := [(SCORE_HIT, false)]
          healthEvents := [HEALTH_GAIN] } ∧ 0 < SCORE_HIT ∧ 0 < HEALTH_GAIN) ∧
    (15 < |t.y - 85| → |t.y - 85| < 30 →
      attemptHit notes lane =
        { notes := notes
          scoreEvents := [(SCORE_MISS, true)]
          healthEvents := [-HEALTH_PENALTY] } ∧ SCORE_MISS < 0 ∧ 0 < HEALTH_PENALTY) ∧
    (30 ≤ |t.y - 85| →
      attemptHit notes lane = { notes := notes, scoreEvents := [], healthEvents := [] }) := by
  have hline : HIT_LINE_Y = 85 := rfl
  have hwin : HIT_WINDOW = 15 := rfl
  have hcase := attemptHit_eq_of_select notes lane i t hsel
  rw [hline, hwin] at hcase
  refine ⟨rfl, rfl, ?_, ?_, ?_⟩
  · intro hd
    refine ⟨?_, by norm_num [SCORE_HIT], by norm_num [HEALTH_GAIN]⟩
    rw [hcase, if_pos hd]
  · intro hd1 hd2
    refine ⟨?_, by norm_num [SCORE_MISS], by norm_num [HEALTH_PENALTY]⟩
    rw [hcase, if_neg (by linarith), if_pos (by linarith)]
  · intro hd
    rw [hcase, if_neg (by linarith), if_neg (by linarith)]

theorem C1_witness :
    selectHit [wNoteA] 0 = some (0, wNoteA) ∧
    attemptHit [wNoteA] 0 =
      { notes := [wNoteA]
        scoreEvents := [(SCORE_MISS, true)]
        healthEvents := [-HEALTH_PENALTY] } :=
  ⟨by decide,
   ((C1_judgment_by_distance [wNoteA] 0 0 wNoteA (by decide)).2.2.2.1
      (by norm_num [wNoteA]) (by norm_num [wNoteA])).1⟩

/-- C2: judgment only considers notes of the pressed lane that are neither
hit nor missed, and selects the one with the largest head position among
them; consequently an already-hit note is never re-selected and is left
untouched by any later press in its lane. -/
theorem C2_select_closest_eligible (notes : List Note) (lane i : Nat) (t : Note)
    (hsel : selectHit notes lane = some (i, t)) :
    i < notes.length ∧ notes.getD i default = t ∧
    t.laneId = lane ∧ t.hit = false ∧ t.missed = false ∧
    (∀ n ∈ notes, n.laneId = lane → n.hit = false → n.missed = false → n.y ≤ t.y) ∧
    (∀ j, (notes.getD j default).hit = true →
      (attemptHit notes lane).notes.getD j default = notes.getD j default) := by
  obtain ⟨hi, hget, helig, hmax⟩ := selectHit_spec notes lane i t hsel
  obtain ⟨hlaneId, hhit, hmiss⟩ := (eligible_iff lane t).mp helig
  refine ⟨hi, hget, hlaneId, hhit, hmiss, ?_, ?_⟩
  · intro n hn h1 h2 h3
    exact hmax n hn ((eligible_iff lane n).mpr ⟨h1, h2, h3⟩)
  · intro j hj
    have hji : j ≠ i := by
      intro he
      rw [he, hget, hhit] at hj
      cases hj
    rw [attemptHit_eq_of_select notes lane i t hsel]
    split_ifs
    · exact modifyAt_getD_ne _ notes i j hji
    · rfl
    · rfl

theorem C2_witness :
    selectHit [wNoteA, { wNoteA with id := 9, y := 80 }] 0 = some (0, wNoteA) ∧
    ({ wNoteA with id := 9, y := 80 } : Note).y ≤ wNoteA.y :=
  ⟨by decide,
   (C2_select_closest_eligible [wNoteA, { wNoteA with id := 9, y := 80 }] 0 0 wNoteA
      (by decide)).2.2.2.2.2.1
      { wNoteA with id := 9, y := 80 } (by simp) rfl rfl rfl⟩

/-- C3: every health callback clamps health into [0, MAX_HEALTH]; along any
sequence of callbacks the playing-to-gameOver transition fires at most once;
it does fire when the clamped health reaches 0 while playing; and a session
already over never re-triggers it, whatever further delta arrives. -/
theorem C3_health_clamped_gameover_once (s : Session) (d : ℚ) (ds : List ℚ) :
    (0 ≤ (handleHealthUpdate s d).health ∧ (handleHealthUpdate s d).health ≤ MAX_HEALTH) ∧
    gameOverFires s ds ≤ 1 ∧
    (s.status = GameStatus.playing → (handleHealthUpdate s d).health ≤ 0 →
      (handleHealthUpdate s d).status = GameStatus.gameOver) ∧
    (handleHealthUpdate { s with status := GameStatus.gameOver } d).status =
      GameStatus.gameOver := by
  refine ⟨⟨?_, ?_⟩, gameOverFires_le_one ds s, ?_, ?_⟩
  · rw [handleHealthUpdate_health]
    exact le_min (by norm_num [MAX_HEALTH]) (le_max_left _ _)
  · rw [handleHealthUpdate_health]
    exact min_le_left _ _
  · intro hplay hz
    rw [handleHealthUpdate_health] at hz
    simp only [handleHealthUpdate]
    rw [if_pos ⟨hz, hplay⟩]
  · exact handleHealthUpdate_gameOver_stays _ d rfl

theorem C3_witness :
    (handleHealthUpdate
      { status := GameStatus.playing, score := 0, combo := 0, maxCombo := 0,
        health := 5 } (-10)).status = GameStatus.gameOver :=
  (C3_health_clamped_gameover_once
    { status := GameStatus.playing, score := 0, combo := 0, maxCombo := 0, health := 5 }
    (-10) []).2.2.1 rfl (by rw [handleHealthUpdate_health]; norm_num [MAX_HEALTH])

/-- C4: a hold note whose head was judged hit, whose lane is not in the held
set while its tail is still above the hit line, is released early: it becomes
missed-and-unhit with exactly one combo-resetting score delta and one health
penalty; on later frames the unhit note only moves and the passive-miss pass
never touches a missed note again. -/
theorem C4_released_early_single_penalty (held : List Nat) (speed : ℚ) (n : Note)
    (hhit : n.hit = true) (hlen : 0 < n.length)
    (hheld : held.contains n.laneId = false)
    (htail : n.y + speed - n.length < HIT_LINE_Y) :
    updateOne held speed n =
      { note := { n with
          y := n.y + speed + 10
          hit := false
          missed := true
          isHolding := false }
        scoreEvents := [(SCORE_MISS, true)]
        healthEvents := [-HEALTH_PENALTY] } ∧
    (∀ (held2 : List Nat) (speed2 : ℚ) (m : Note), m.hit = false →
      updateOne held2 speed2 m =
        { note := { m with y := m.y + speed2 }, scoreEvents := [], healthEvents := [] }) ∧
    (∀ m : Note, m.missed = true →
      missCheck m = { note := m, scoreEvents := [], healthEvents := [] }) :=
  ⟨updateOne_released held speed n hhit hlen hheld htail,
   fun held2 speed2 m hm => updateOne_unhit held2 speed2 m hm,
   fun m hm => missCheck_missed m hm⟩

theorem C4_witness :
    updateOne [] 1 wHold =
      { note := { wHold with
          y := wHold.y + 1 + 10
          hit := false
          missed := true
          isHolding := false }
        scoreEvents := [(SCORE_MISS, true)]
        healthEvents := [-HEALTH_PENALTY] } :=
  (C4_released_early_single_penalty [] 1 wHold rfl (by norm_num [wHold]) rfl
    (by norm_num [wHold, HIT_LINE_Y])).1

/-- C5: a hold note whose head was judged hit and whose lane stays held
completes exactly when its tail passes the hit line: one positive bonus
without combo reset, the note is retired (length 0, parked off screen and
dropped by the cleanup filter), so no later frame can emit a second bonus;
frames while the tail is still above the line emit nothing. -/
theorem C5_hold_completed_single_bonus (held : List Nat) (speed : ℚ) (n : Note)
    (hhit : n.hit = true) (hlen : 0 < n.length)
    (hheld : held.contains n.laneId = true)
    (htail : HIT_LINE_Y < n.y + speed - n.length) :
    updateOne held speed n =
      { note := { n with y := 200, length := 0, isHolding := true }
        scoreEvents := [(5, false)]
        healthEvents := [] } ∧ (0 : Int) < 5 ∧
    offscreenKeep { n with y := 200, length := 0, isHolding := true } = false ∧
    (∀ (held2 : List Nat) (speed2 : ℚ) (m : Note), ¬ 0 < m.length →
      updateOne held2 speed2 m =
        { note := { m with y := m.y + speed2 }, scoreEvents := [], healthEvents := [] }) ∧
    (∀ (held2 : List Nat) (speed2 : ℚ), held2.contains n.laneId = true →
      ¬ HIT_LINE_Y < n.y + speed2 - n.length →
      updateOne held2 speed2 n =
        { note := { n with y := n.y + speed2, isHolding := true }
          scoreEvents := []
          healthEvents := [] }) := by
  refine ⟨updateOne_completed held speed n hhit hlen hheld htail, by norm_num, ?_, ?_, ?_⟩
  · simp only [offscreenKeep, decide_eq_false_iff_not, not_lt]
    norm_num
  · intro held2 speed2 m hm
    exact updateOne_tap held2 speed2 m hm
  · intro held2 speed2 hh ht
    exact updateOne_holding held2 speed2 n hhit hlen hh ht

theorem C5_witness :
    updateOne [2] 25 wHold =
      { note := { wHold with y := 200, length := 0, isHolding := true }
        scoreEvents := [(5, false)]
        healthEvents := [] } :=
  (C5_hold_completed_single_bonus [2] 25 wHold rfl (by norm_num [wHold]) rfl
    (by norm_num [wHold, HIT_LINE_Y])).1

/-- C6: a note never hit and never missed is marked missed, with exactly one
combo-resetting score delta and one health penalty, on the first frame its
head exceeds hitLine + hitWindow = 100; frames at or before that threshold
emit nothing, and once a note is missed the passive-miss pass never emits for
it again while the movement pass keeps the missed flag set. -/
theorem C6_passive_miss_single_penalty (held : List Nat) (speed : ℚ) (n : Note)
    (hhit : n.hit = false) (hmiss : n.missed = false) :
    HIT_LINE_Y + HIT_WINDOW = 100 ∧
    (100 < n.y + speed →
      updateOne held speed n =
        { note := { n with y := n.y + speed }, scoreEvents := [], healthEvents := [] } ∧
      missCheck { n with y := n.y + speed } =
        { note := { n with y := n.y + speed, missed := true }
          scoreEvents := [(SCORE_MISS, true)]
          healthEvents := [-HEALTH_PENALTY] }) ∧
    (n.y + speed ≤ 100 →
      missCheck { n with y := n.y + speed } =
        { note := { n with y := n.y + speed }, scoreEvents := [], healthEvents := [] }) ∧
    (∀ (held2 : List Nat) (speed2 : ℚ) (m : Note), m.missed = true →
      missCheck m = { note := m, scoreEvents := [], healthEvents := [] } ∧
      (updateOne held2 speed2 m).note.missed = true) := by
  have h100 : HIT_LINE_Y + HIT_WINDOW = (100 : ℚ) := by norm_num [HIT_LINE_Y, HIT_WINDOW]
  refine ⟨h100, ?_, ?_, ?_⟩
  · intro hy
    refine ⟨updateOne_unhit held speed n hhit, ?_⟩
    exact missCheck_over { n with y := n.y + speed } hhit hmiss (by rw [h100]; exact hy)
  · intro hy
    exact missCheck_under { n with y := n.y + speed } (by rw [h100]; simpa using hy)
  · intro held2 speed2 m hm
    exact ⟨missCheck_missed m hm, updateOne_keeps_missed held2 speed2 m hm⟩

theorem C6_witness :
    missCheck { wNoteA with y := wNoteA.y + 1 } =
      { note := { wNoteA with y := wNoteA.y + 1, missed := true }
        scoreEvents := [(SCORE_MISS, true)]
        healthEvents := [-HEALTH_PENALTY] } :=
  ((C6_passive_miss_single_penalty [] 1 wNoteA rfl rfl).2.1 (by norm_num [wNoteA])).2

/-- C7: score callbacks reset the combo to 0 exactly when the reset flag is
set and bump it by exactly 1 otherwise; maxCombo is the running high-water
mark of combo and never decreases; and every score event any engine path can
emit is either a success without reset (hit or hold bonus) or a penalty with
reset. -/
theorem C7_combo_reset_and_highwater (s : Session) (d : Int) (r : Bool)
    (es : List (Int × Bool)) (notes : List Note) (lane : Nat)
    (held : List Nat) (speed : ℚ) (n : Note) :
    (handleScoreUpdate s d true).combo = 0 ∧
    (handleScoreUpdate s d false).combo = s.combo + 1 ∧
    (handleScoreUpdate s d r).maxCombo = max s.maxCombo (handleScoreUpdate s d r).combo ∧
    s.maxCombo ≤ (handleScoreUpdate s d r).maxCombo ∧
    s.maxCombo ≤ (runScore s es).maxCombo ∧
    (runScore s es).maxCombo = (comboTrace s es).foldl max s.maxCombo ∧
    ((attemptHit notes lane).scoreEvents = [] ∨
      (attemptHit notes lane).scoreEvents = [(SCORE_HIT, false)] ∨
      (attemptHit notes lane).scoreEvents = [(SCORE_MISS, true)]) ∧
    ((updateOne held speed n).scoreEvents = [] ∨
      (updateOne held speed n).scoreEvents = [(5, false)] ∨
      (updateOne held speed n).scoreEvents = [(SCORE_MISS, true)]) ∧
    ((missCheck n).scoreEvents = [] ∨
      (missCheck n).scoreEvents = [(SCORE_MISS, true)]) := by
  refine ⟨(handleScoreUpdate_reset s d).1, (handleScoreUpdate_inc s d).1,
    handleScoreUpdate_maxCombo_highwater s d r, handleScoreUpdate_maxCombo_mono s d r,
    runScore_maxCombo_mono es s, runScore_maxCombo_trace es s, ?_, ?_, ?_⟩
  · rcases h : selectHit notes lane with _ | ⟨i, t⟩
    · left
      simp [attemptHit, h]
    · rw [attemptHit_eq_of_select notes lane i t h]
      split_ifs
      · right; left; rfl
      · right; right; rfl
      · left; rfl
  · simp only [updateOne]
    split_ifs
    · right; left; rfl
    · left; rfl
    · right; right; rfl
    · left; rfl
    · left; rfl
  · by_cases h : n.hit = false ∧ n.missed = false ∧
        HIT_LINE_Y + HIT_WINDOW < n.y - (if 0 < n.length then 0 else 0)
    · right
      simp only [missCheck, if_pos h]
    · left
      simp only [missCheck, if_neg h]

/-! ### Helpers for C8 -/

theorem attemptHit_length (notes : List Note) (lane : Nat) :
    (attemptHit notes lane).notes.length = notes.length := by
  rcases h : selectHit notes lane with _ | ⟨i, t⟩
  · simp [attemptHit, h]
  · rw [attemptHit_eq_of_select notes lane i t h]
    split_ifs
    · exact modifyAt_length _ notes i
    · rfl
    · rfl

theorem attemptHit_y (notes : List Note) (lane j : Nat) :
    ((attemptHit notes lane).notes.getD j default).y = (notes.getD j default).y := by
  rcases h : selectHit notes lane with _ | ⟨i, t⟩
  · simp [attemptHit, h]
  · obtain ⟨hi, _, _, _⟩ := selectHit_spec notes lane i t h
    rw [attemptHit_eq_of_select notes lane i t h]
    split_ifs
    · by_cases hj : j = i
      · rw [hj, modifyAt_getD_eq _ notes i hi]
      · rw [modifyAt_getD_ne _ notes i j hj]
    · rfl
    · rfl

theorem missCheck_y (m : Note) : (missCheck m).note.y = m.y := by
  simp only [missCheck]
  split_ifs <;> rfl

theorem missCheck_length (m : Note) : (missCheck m).note.length = m.length := by
  simp only [missCheck]
  split_ifs <;> rfl

theorem updateOne_y_mono (held : List Nat) (speed : ℚ) (n : Note)
    (hsp : 0 ≤ speed) (hkeep : offscreenKeep n = true) (hlen : n.length ≤ 50) :
    n.y ≤ (updateOne held speed n).note.y := by
  have hk : n.y - n.length < 120 := of_decide_eq_true hkeep
  simp only [updateOne]
  split_ifs <;> simp <;> linarith

/-- C8: the judgment engine never moves a head and never removes a note; the
spawner only appends; and during a frame update every stored note either
survives into the filtered store with a head position at least its old one,
or fails the off-screen keep condition, that is its head minus length reached
the 120 threshold — the sole removal path. -/
theorem C8_monotone_y_single_removal (notes : List Note) (lane : Nat)
    (held : List Nat) (speed : ℚ) (timestamp lastSpawn spawnRate : ℚ)
    (selectedLanes : List Nat) (lengths : List ℚ)
    (hsp : 0 ≤ speed) :
    ((attemptHit notes lane).notes.length = notes.length ∧
      ∀ j, ((attemptHit notes lane).notes.getD j default).y = (notes.getD j default).y) ∧
    (∃ fresh, (spawnNote notes timestamp lastSpawn spawnRate selectedLanes lengths).1 =
      notes ++ fresh) ∧
    (∀ n ∈ notes, offscreenKeep n = true → n.length ≤ 50 →
      n.y ≤ ((missCheck (updateOne held speed n).note).note).y ∧
      (offscreenKeep ((missCheck (updateOne held speed n).note).note) = true →
        ((missCheck (updateOne held speed n).note).note) ∈ (updateNotes held speed notes).1) ∧
      (offscreenKeep ((missCheck (updateOne held speed n).note).note) = false →
        120 ≤ ((missCheck (updateOne held speed n).note).note).y -
          ((missCheck (updateOne held speed n).note).note).length)) := by
  refine ⟨⟨attemptHit_length notes lane, attemptHit_y notes lane⟩, ?_, ?_⟩
  · simp only [spawnNote]
    split_ifs
    · exact ⟨spawnBatch timestamp selectedLanes lengths, rfl⟩
    · exact ⟨[], by simp⟩
  · intro n hn hkeep hlen
    refine ⟨?_, ?_, ?_⟩
    · rw [missCheck_y]
      exact updateOne_y_mono held speed n hsp hkeep hlen
    · intro hk2
      have h1 : updateOne held speed n ∈ notes.map (updateOne held speed) :=
        List.mem_map_of_mem _ hn
      have h2 : (updateOne held speed n).note ∈
          (notes.map (updateOne held speed)).map FrameEffect.note :=
        List.mem_map_of_mem _ h1
      have h3 : missCheck (updateOne held speed n).note ∈
          ((notes.map (updateOne held speed)).map FrameEffect.note).map missCheck :=
        List.mem_map_of_mem _ h2
      have h4 : (missCheck (updateOne held speed n).note).note ∈
          (((notes.map (updateOne held speed)).map FrameEffect.note).map missCheck).map
            FrameEffect.note :=
        List.mem_map_of_mem _ h3
      exact List.mem_filter.mpr ⟨h4, hk2⟩
    · intro hk2
      have := of_decide_eq_false hk2
      linarith [not_lt.mp this]

theorem C8_witness :
    wNoteA ∈ [wNoteA] ∧
    wNoteA.y ≤ ((missCheck (updateOne [] 1 wNoteA).note).note).y :=
  ⟨List.mem_singleton.mpr rfl,
   ((C8_monotone_y_single_removal [wNoteA] 0 [] 1 0 0 0 [] [] (by norm_num)).2.2
      wNoteA (List.mem_singleton.mpr rfl)
      (by simp only [offscreenKeep, wNoteA, decide_eq_true_eq]; norm_num)
      (by norm_num [wNoteA])).1⟩

/-- A tap note in lane 1 sitting exactly on the hit line. -/
def wB : Note :=
  { id := 2, laneId := 1, y := 85, hit := false, missed := false, length := 0,
    isHolding := false }

/-- C9: a press at a lane never mutates a note stored under a different lane,
and when the selected note is farther than the hit window (near miss or
no-op) no note at all is mutated — the target stays unhit, unmissed and
eligible. -/
theorem C9_lane_isolation_near_miss (notes : List Note) (lane i : Nat) (t : Note)
    (hsel : selectHit notes lane = some (i, t)) :
    (∀ j, (notes.getD j default).laneId ≠ lane →
      (attemptHit notes lane).notes.getD j default = notes.getD j default) ∧
    (HIT_WINDOW < |t.y - HIT_LINE_Y| →
      (attemptHit notes lane).notes = notes ∧
      t.hit = false ∧ t.missed = false ∧ eligible lane t = true) := by
  obtain ⟨hi, hget, helig, _⟩ := selectHit_spec notes lane i t hsel
  obtain ⟨hlaneId, hhit, hmiss⟩ := (eligible_iff lane t).mp helig
  constructor
  · intro j hj
    have hji : j ≠ i := by
      intro he
      rw [he, hget, hlaneId] at hj
      exact hj rfl
    rw [attemptHit_eq_of_select notes lane i t hsel]
    split_ifs
    · exact modifyAt_getD_ne _ notes i j hji
    · rfl
    · rfl
  · intro hd
    refine ⟨?_, hhit, hmiss, helig⟩
    rw [attemptHit_eq_of_select notes lane i t hsel, if_neg (not_le.mpr hd)]
    split_ifs <;> rfl

theorem C9_witness :
    (attemptHit [wNoteA, wB] 0).notes = [wNoteA, wB] :=
  ((C9_lane_isolation_near_miss [wNoteA, wB] 0 0 wNoteA (by decide)).2
    (by norm_num [wNoteA, HIT_WINDOW, HIT_LINE_Y])).1

/-- C10: a touch-end with zero remaining touches empties the whole held set,
including lanes added by keyboard presses whose keys are still down; a hold
note being sustained then takes the released-early path on the next frame
while its tail is still above the hit line. -/
theorem C10_touchend_clears_keyboard_holds (held : List Nat) (lane : Nat)
    (speed : ℚ) (n : Note)
    (hhit : n.hit = true) (hlen : 0 < n.length)
    (htail : n.y + speed - n.length < HIT_LINE_Y) :
    handleTouchEnd 0 held = [] ∧
    (handleTouchEnd 0 (keyDownHeld held lane)).contains lane = false ∧
    updateOne (handleTouchEnd 0 held) speed n =
      { note := { n with
          y := n.y + speed + 10
          hit := false
          missed := true
          isHolding := false }
        scoreEvents := [(SCORE_MISS, true)]
        healthEvents := [-HEALTH_PENALTY] } := by
  refine ⟨rfl, rfl, ?_⟩
  have he : handleTouchEnd 0 held = [] := rfl
  rw [he]
  exact updateOne_released [] speed n hhit hlen rfl htail

theorem C10_witness :
    updateOne (handleTouchEnd 0 (keyDownHeld [] 2)) 1 wHold =
      { note := { wHold with
          y := wHold.y + 1 + 10
          hit := false
          missed := true
          isHolding := false }
        scoreEvents := [(SCORE_MISS, true)]
        healthEvents := [-HEALTH_PENALTY] } :=
  (C10_touchend_clears_keyboard_holds (keyDownHeld [] 2) 2 1 wHold rfl
    (by norm_num [wHold]) (by norm_num [wHold, HIT_LINE_Y])).2.2

end Guitar
